import Mathlib

/-!
Verification of the habit-tracker utilities (storage, progress calculations,
achievements, data synchronizer) against their natural-language specification.

Modelling conventions, shared by every embedded function:

* JavaScript numbers that the program only ever uses as integers (counters,
  epoch milliseconds) are modelled by `Int`; exact fractional arithmetic
  (`Math.round` of a quotient) is idealised over `Rat`.
* A calendar date string `yyyy-mm-dd` is modelled by its parsed numeric value
  (`Date.parse`, epoch milliseconds), which on canonical day strings is
  injective and order-preserving, so the program's string equality test
  (`entry.date === today`) and its `new Date(a) - new Date(b)` comparator
  agree with equality and order on the model.
* `Array.prototype.sort` is stable and, for a consistent comparator, produces
  the unique stable order; it is modelled by a stable insertion sort on the
  comparator's key.
* `AsyncStorage` state is a value `Option StoredData` (the JSON stored under
  the `@habits` key, already parsed); a write either persists the new value or
  leaves the store unchanged, selected by an explicit `writeOk` flag.
* `new Date()` is passed explicitly as a `JsDate`: its epoch milliseconds,
  the parsed value of `toISOString().split('T')[0]` (today's day code) and
  the full `toISOString()` string.
-/

/-- One entry of a habit's completion history: `{ date, completed }`.
The `date` field holds the parsed numeric value of the ISO day string. -/
structure CompletionEntry where
  date : Int
  completed : Bool
deriving DecidableEq, Repr

/-- The habit record stored under the `@habits` key (see `types.js`).
`createdAt` is the parsed timestamp; `lastUpdated` is `none` until an update
writes the field. -/
structure Habit where
  id : String
  name : String
  frequency : String
  targetTime : Option String
  createdAt : Int
  completedDays : Int
  totalDays : Int
  completionHistory : List CompletionEntry
  isCompleted : Bool
  lastUpdated : Option String
deriving DecidableEq, Repr

/-- The JSON blob stored under `@habits`: `{ habits, lastUpdated, version }`. -/
structure StoredData where
  habits : List Habit
  lastUpdated : String
  version : String
deriving DecidableEq, Repr

/-- A value of `new Date()`: epoch milliseconds, the parsed value of the
`toISOString().split('T')[0]` day string, and the `toISOString()` string. -/
structure JsDate where
  ms : Int
  todayCode : Int
  iso : String
deriving DecidableEq, Repr

/-- `Math.round` for nonnegative-range use: round half toward positive
infinity, idealised over exact rationals. -/
def jsRound (q : Rat) : Int :=
  Int.floor (q + 1/2)

/-- Insert `x` into a list sorted ascending on key `k`, before the first
element of strictly larger key; equal keys keep the earlier element first. -/
def sortedIns {α : Type} (k : α → Int) (x : α) : List α → List α
  | [] => [x]
  | y :: ys => if k x ≤ k y then x :: y :: ys else y :: sortedIns k x ys

/-- Stable sort ascending on key `k`, the behaviour of a stable
`Array.prototype.sort` with comparator `(a, b) => k a - k b`. -/
def stableSort {α : Type} (k : α → Int) : List α → List α
  | [] => []
  | x :: xs => sortedIns k x (stableSort k xs)

theorem sortedIns_perm {α : Type} (k : α → Int) (x : α) (l : List α) :
    List.Perm (sortedIns k x l) (x :: l) := by
  induction l with
  | nil => simp [sortedIns]
  | cons y ys ih =>
    by_cases h : k x ≤ k y
    · simp [sortedIns, h]
    · simp only [sortedIns, h, if_false]
      exact (ih.cons y).trans (List.Perm.swap x y ys)

theorem stableSort_perm {α : Type} (k : α → Int) (l : List α) :
    List.Perm (stableSort k l) l := by
  induction l with
  | nil => simp [stableSort]
  | cons x xs ih =>
    exact (sortedIns_perm k x (stableSort k xs)).trans (ih.cons x)

theorem sortedIns_pairwise {α : Type} (k : α → Int) (x : α) (l : List α)
    (h : List.Pairwise (fun a b => k a ≤ k b) l) :
    List.Pairwise (fun a b => k a ≤ k b) (sortedIns k x l) := by
  induction l with
  | nil => simp [sortedIns]
  | cons y ys ih =>
    rcases List.pairwise_cons.mp h with ⟨hy, hys⟩
    by_cases hxy : k x ≤ k y
    · simp only [sortedIns, hxy, if_true]
      refine List.pairwise_cons.mpr ⟨?_, h⟩
      intro b hb
      rcases List.mem_cons.mp hb with rfl | hb
      · exact hxy
      · exact le_trans hxy (hy b hb)
    · simp only [sortedIns, hxy, if_false]
      refine List.pairwise_cons.mpr ⟨?_, ih hys⟩
      intro b hb
      have hb' := (sortedIns_perm k x ys).mem_iff.mp hb
      rcases List.mem_cons.mp hb' with rfl | hb'
      · exact le_of_not_le hxy
      · exact hy b hb'

theorem stableSort_pairwise {α : Type} (k : α → Int) (l : List α) :
    List.Pairwise (fun a b => k a ≤ k b) (stableSort k l) := by
  induction l with
  | nil => simp [stableSort]
  | cons x xs ih => exact sortedIns_pairwise k x _ ih

theorem stableSort_sorted_id {α : Type} (k : α → Int) (l : List α)
    (h : List.Pairwise (fun a b => k a ≤ k b) l) : stableSort k l = l := by
  induction l with
  | nil => rfl
  | cons x xs ih =>
    rcases List.pairwise_cons.mp h with ⟨hx, hxs⟩
    rw [stableSort, ih hxs]
    cases xs with
    | nil => rfl
    | cons y ys =>
      have : k x ≤ k y := hx y (List.mem_cons_self y ys)
      simp [sortedIns, this]

/-- Two permuted lists that are both strictly sorted on the key are equal. -/
theorem strictSorted_unique {α : Type} (k : α → Int) :
    ∀ l₁ l₂ : List α, List.Perm l₁ l₂ →
    List.Pairwise (fun a b => k a < k b) l₁ →
    List.Pairwise (fun a b => k a < k b) l₂ → l₁ = l₂ := by
  intro l₁
  induction l₁ with
  | nil =>
    intro l₂ hp _ _
    exact (List.Perm.nil_eq hp).symm ▸ rfl
  | cons x xs ih =>
    intro l₂ hp h₁ h₂
    cases l₂ with
    | nil => exact absurd hp.symm (by simp)
    | cons y ys =>
      rcases List.pairwise_cons.mp h₁ with ⟨hx, hxs⟩
      rcases List.pairwise_cons.mp h₂ with ⟨hy, hys⟩
      have hxy : x = y := by
        by_contra hne
        have hxmem : x ∈ y :: ys := hp.mem_iff.mp (List.mem_cons_self x xs)
        have hx_in_ys : x ∈ ys := by
          rcases List.mem_cons.mp hxmem with h | h
          · exact absurd h hne
          · exact h
        have hymem : y ∈ x :: xs := hp.symm.mem_iff.mp (List.mem_cons_self y ys)
        have hy_in_xs : y ∈ xs := by
          rcases List.mem_cons.mp hymem with h | h
          · exact absurd h.symm hne
          · exact h
        have h1 : k x < k y := hx y hy_in_xs
        have h2 : k y < k x := hy x hx_in_ys
        exact absurd (h1.trans h2) (lt_irrefl _)
      subst hxy
      have := ih ys (List.Perm.cons_inv hp) hxs hys
      rw [this]

/-! ## `types.js`: validation -/

/-- `String.prototype.trim`: strip whitespace from both ends, modelled on
the underlying character list. -/
def jsTrim (s : String) : String :=
  ⟨((s.data.dropWhile Char.isWhitespace).reverse.dropWhile Char.isWhitespace).reverse⟩

/-- `validateHabit` from `types.js`: returns the list of error messages.
`!habit.name` is string falsiness (empty string); `targetTime` is modelled as
string-or-null, so its type check never fires; `completionHistory` is always
an array and `isCompleted` always a boolean in the typed model. -/
def validateHabit (h : Habit) : List String :=
  (if h.name = "" ∨ (jsTrim h.name).length = 0 then
    ["Habit name is required and must be a non-empty string"] else []) ++
  (if ¬ (h.frequency = "daily" ∨ h.frequency = "weekly") then
    ["Frequency must be either \x22daily\x22 or \x22weekly\x22"] else []) ++
  (if h.completedDays < 0 then
    ["Completed days must be a non-negative number"] else []) ++
  (if h.totalDays < 0 then
    ["Total days must be a non-negative number"] else [])

/-- `validateStoredData` from `types.js` on an already-parsed blob: collects
per-habit errors plus the `lastUpdated` / `version` string checks
(`!data.lastUpdated` is falsy exactly on the empty string). -/
def validateStoredData (d : StoredData) : List String :=
  (d.habits.enum.flatMap fun p =>
    if validateHabit p.2 = [] then []
    else ["Habit at index " ++ toString p.1 ++ ": " ++
          String.intercalate ", " (validateHabit p.2)]) ++
  (if d.lastUpdated = "" then ["lastUpdated must be a string"] else []) ++
  (if d.version = "" then ["version must be a string"] else [])

/-- `validateStoredData(...).isValid`. -/
def storedDataIsValid (d : StoredData) : Bool :=
  validateStoredData d = []

/-! ## `storage.js`: habit storage operations -/

/-- `getHabits` from `storage.js`: read the `@habits` blob (defaulting to an
empty collection), validate it, and return its habit array, or `[]` when
validation fails. -/
def getHabits (store : Option StoredData) (now : JsDate) : List Habit :=
  let storedData := store.getD { habits := [], lastUpdated := now.iso, version := "1.0.0" }
  if storedDataIsValid storedData then storedData.habits else []

/-- `saveHabits` from `storage.js`: wrap the array in a fresh blob, validate,
and write. Returns the success flag and the resulting store contents; a failed
validation or a failed write (`writeOk = false`) leaves the store unchanged. -/
def saveHabits (store : Option StoredData) (habits : List Habit) (now : JsDate)
    (writeOk : Bool) : Bool × Option StoredData :=
  let storedData : StoredData :=
    { habits := habits, lastUpdated := now.iso, version := "1.0.0" }
  if storedDataIsValid storedData then
    if writeOk then (true, some storedData) else (false, store)
  else (false, store)

/-- The `{name, frequency, targetTime}` argument of `addHabit`. -/
structure HabitData where
  name : String
  frequency : String
  targetTime : Option String
deriving DecidableEq, Repr

/-- The habit object `addHabit` synthesizes: fresh id, zeroed counters,
`targetTime || null` (an empty string is falsy and becomes null). -/
def mkNewHabit (data : HabitData) (newId : String) (now : JsDate) : Habit :=
  { id := newId
    name := data.name
    frequency := data.frequency
    targetTime := match data.targetTime with
      | some s => if s = "" then none else some s
      | none => none
    createdAt := now.ms
    completedDays := 0
    totalDays := 0
    completionHistory := []
    isCompleted := false
    lastUpdated := none }

/-- `addHabit` from `storage.js`: append the synthesized habit and persist via
`saveHabits`; returns the created habit on success, `null` otherwise, paired
with the resulting store contents. -/
def addHabit (store : Option StoredData) (data : HabitData) (newId : String)
    (now : JsDate) (writeOk : Bool) : Option Habit × Option StoredData :=
  let habits := getHabits store now
  let newHabit := mkNewHabit data newId now
  let result := saveHabits store (habits ++ [newHabit]) now writeOk
  (if result.1 then some newHabit else none, result.2)

/-- `Math.floor((new Date() - createdAt) / (1000*60*60*24)) + 1` from
`updateHabitCompletion` and `recalculateAllHabitsProgress`. -/
def daysSinceCreation (now : JsDate) (createdAt : Int) : Int :=
  (now.ms - createdAt).fdiv 86400000 + 1

/-- The in-place history edit of `updateHabitCompletion`: overwrite the first
entry for today (`findIndex`) if present, else push a new entry. -/
def todayApplied (history : List CompletionEntry) (today : Int)
    (isCompleted : Bool) : List CompletionEntry :=
  match history.findIdx? (fun e => e.date == today) with
  | some j => history.set j { date := today, completed := isCompleted }
  | none => history ++ [{ date := today, completed := isCompleted }]

/-- The history rewrite inside `updateHabitCompletion`: overwrite today's
entry if present, else push one, then sort ascending by date. -/
def updatedHistoryOf (history : List CompletionEntry) (today : Int)
    (isCompleted : Bool) : List CompletionEntry :=
  stableSort (fun e => e.date) (todayApplied history today isCompleted)

/-- The updated habit object built by `updateHabitCompletion`. -/
def updateCompletionHabit (habit : Habit) (isCompleted : Bool) (now : JsDate) : Habit :=
  let updatedHistory := updatedHistoryOf habit.completionHistory now.todayCode isCompleted
  let completedDays := (updatedHistory.filter (fun e => e.completed)).length
  let totalDays := updatedHistory.length
  let actualTotalDays := max (totalDays : Int) (daysSinceCreation now habit.createdAt)
  { habit with
    isCompleted := isCompleted
    completedDays := (completedDays : Int)
    totalDays := actualTotalDays
    completionHistory := updatedHistory
    lastUpdated := some now.iso }

/-- `updateHabitCompletion` from `storage.js`: locate the habit by id, rewrite
today's history entry, recompute the counters, and persist. -/
def updateHabitCompletion (store : Option StoredData) (habitId : String)
    (isCompleted : Bool) (now : JsDate) (writeOk : Bool) : Bool × Option StoredData :=
  let habits := getHabits store now
  match habits.findIdx? (fun h => h.id == habitId) with
  | none => (false, store)
  | some i =>
    match habits[i]? with
    | none => (false, store)
    | some habit =>
      let updatedHabit := updateCompletionHabit habit isCompleted now
      saveHabits store (habits.set i updatedHabit) now writeOk

/-- The per-habit recomputation inside `recalculateAllHabitsProgress`. -/
def recalcHabit (now : JsDate) (habit : Habit) : Habit :=
  let completionHistory := habit.completionHistory
  let completedDays := (completionHistory.filter (fun e => e.completed)).length
  let totalDays :=
    max (completionHistory.length : Int) (daysSinceCreation now habit.createdAt)
  let isCompleted :=
    match completionHistory.find? (fun e => e.date == now.todayCode) with
    | some todayEntry => todayEntry.completed
    | none => false
  { habit with
    completedDays := (completedDays : Int)
    totalDays := totalDays
    isCompleted := isCompleted
    lastUpdated := some now.iso }

/-- `recalculateAllHabitsProgress` from `storage.js`. -/
def recalculateAllHabitsProgress (store : Option StoredData) (now : JsDate)
    (writeOk : Bool) : Bool × Option StoredData :=
  let habits := getHabits store now
  let updatedHabits := habits.map (recalcHabit now)
  saveHabits store updatedHabits now writeOk

/-! ## `progressCalculations.js` -/

/-- The current-streak loop of `calculateStreak` after the first iteration:
once the counter is `1` no later iteration changes it, and a zero counter at
a completed entry breaks the loop returning `0`. -/
def currentStreakGo (cs : Nat) : List CompletionEntry → Nat
  | [] => cs
  | e :: rest =>
    if e.completed then
      (if cs = 0 then cs else currentStreakGo cs rest)
    else currentStreakGo cs rest

/-- The current-streak loop of `calculateStreak` over the history sorted
newest first: iteration `i = 0` sets the counter to `1` on a completed entry
and to `0` (with a break) otherwise. -/
def currentStreakLoop : List CompletionEntry → Nat
  | [] => 0
  | e :: rest => if e.completed then currentStreakGo 1 rest else 0

/-- The longest-streak loop of `calculateStreak`, carrying `tempStreak` and
`longestStreak` over the chronologically ordered entries. -/
def longestStreakLoop (temp longest : Nat) : List CompletionEntry → Nat
  | [] => longest
  | e :: rest =>
    if e.completed then longestStreakLoop (temp + 1) (max longest (temp + 1)) rest
    else longestStreakLoop 0 longest rest

/-- The `{ currentStreak, longestStreak }` result of `calculateStreak`. -/
structure StreakResult where
  currentStreak : Nat
  longestStreak : Nat
deriving DecidableEq, Repr

/-- `calculateStreak` from `progressCalculations.js`: sort the history newest
first (comparator `new Date(b.date) - new Date(a.date)`, modelled as a stable
sort on the negated date key), run the current-streak loop on it, then
reverse in place and run the longest-streak loop. -/
def calculateStreak (completionHistory : List CompletionEntry) : StreakResult :=
  if completionHistory.length = 0 then
    { currentStreak := 0, longestStreak := 0 }
  else
    let sortedHistory := stableSort (fun e => -e.date) completionHistory
    { currentStreak := currentStreakLoop sortedHistory
      longestStreak := longestStreakLoop 0 0 sortedHistory.reverse }

/-- A habit object as `calculateCompletionPercentage` and
`calculateConsistencyScore` receive it, possibly malformed: a `none` field is
missing or not a number (its arithmetic yields NaN, its `=== 0` test is
false); a `none` history is missing or not an array. -/
structure JsHabit where
  completedDays : Option Rat
  totalDays : Option Rat
  completionHistory : Option (List CompletionEntry)
deriving DecidableEq, Repr

/-- `calculateCompletionPercentage` from `progressCalculations.js`.
`none` in, or a NaN result, is `none` out; `Math.min(NaN, 100)` is NaN, so a
NaN quotient propagates to the result. -/
def calculateCompletionPercentage : Option JsHabit → Option Rat
  | none => some 0
  | some habit =>
    if habit.totalDays = some 0 then some 0
    else
      match habit.completedDays, habit.totalDays with
      | some c, some t => some (min ((jsRound (c / t * 100) : Int) : Rat) 100)
      | _, _ => none

/-- `calculateWeeklyCompletionRate` from `progressCalculations.js` with its
default `weeksBack = 4` made explicit. -/
def calculateWeeklyCompletionRate (completionHistory : List CompletionEntry)
    (weeksBack : Nat) (now : JsDate) : Rat :=
  if completionHistory.length = 0 then 0
  else
    let weeksAgo : Int := now.ms - (weeksBack * 7 * 24 * 60 * 60 * 1000 : Nat)
    let recentEntries := completionHistory.filter (fun e => weeksAgo ≤ e.date)
    if recentEntries.length = 0 then 0
    else
      let completedEntries := recentEntries.filter (fun e => e.completed)
      ((jsRound ((completedEntries.length : Rat) / (recentEntries.length : Rat) * 100) : Int) : Rat)

/-- The `{ score, rating }` result of `calculateConsistencyScore`; a `none`
score is NaN. -/
structure ConsistencyResult where
  score : Option Int
  rating : String
deriving DecidableEq, Repr

/-- `score >= bound` where a NaN (`none`) score compares false. -/
def scoreGe (score : Option Rat) (bound : Rat) : Bool :=
  match score with
  | some s => bound ≤ s
  | none => false

/-- `calculateConsistencyScore` from `progressCalculations.js`: weighted sum
of completion rate, weekly rate and capped current streak; a NaN completion
rate makes the score NaN, and every rating comparison on NaN is false, so the
rating falls through to the final `else`. -/
def calculateConsistencyScore (habit : Option JsHabit) (now : JsDate) : ConsistencyResult :=
  match habit with
  | none => { score := some 0, rating := "No Data" }
  | some h =>
    match h.completionHistory with
    | none => { score := some 0, rating := "No Data" }
    | some history =>
      if history.length = 0 then { score := some 0, rating := "No Data" }
      else
        let currentStreak := (calculateStreak history).currentStreak
        let completionRate := calculateCompletionPercentage habit
        let weeklyRate := calculateWeeklyCompletionRate history 4 now
        let raw : Option Rat :=
          match completionRate with
          | some cr =>
            some (cr * (2/5) + weeklyRate * (3/10) +
                  (min ((currentStreak : Rat) * 5) 30) * (3/10))
          | none => none
        let score : Option Int := raw.map jsRound
        let rating :=
          if scoreGe (score.map (fun s => (s : Rat))) 90 then "Excellent"
          else if scoreGe (score.map (fun s => (s : Rat))) 75 then "Great"
          else if scoreGe (score.map (fun s => (s : Rat))) 60 then "Good"
          else if scoreGe (score.map (fun s => (s : Rat))) 40 then "Fair"
          else "Needs Improvement"
        { score := score, rating := rating }

/-! ## Specification-side definitions (from the wording of the spec, for
comparison with the embedded code) -/

/-- Modelled from the spec: the current streak as the spec words it, the
count of consecutive most-recent entries, starting from the newest after
sorting descending by date, that are completed. -/
def specCurrentStreak (completionHistory : List CompletionEntry) : Nat :=
  ((stableSort (fun e => -e.date) completionHistory).takeWhile
    (fun e => e.completed)).length

/-- The lengths of the maximal blocks of consecutive completed entries, with
a zero-length block at each non-completed entry boundary. -/
def completedRunLengths : List CompletionEntry → List Nat
  | [] => [0]
  | e :: rest =>
    let r := completedRunLengths rest
    if e.completed then
      (match r with
       | [] => [1]
       | h :: t => (h + 1) :: t)
    else 0 :: r

/-- Modelled from the spec: the longest streak as the maximum run length of
consecutive completed entries in the given (chronologically ordered) log. -/
def specLongestStreak (log : List CompletionEntry) : Nat :=
  (completedRunLengths log).foldr max 0

/-- Modelled from the spec: the chronologically sorted log (ascending by
date). -/
def chronoSorted (completionHistory : List CompletionEntry) : List CompletionEntry :=
  stableSort (fun e => e.date) completionHistory

/-! ## `achievementSystem.js` -/

/-- The numeric value of a maximal leading run of decimal digits. -/
def decDigitsVal (cs : List Char) : Option Int :=
  let ds := cs.takeWhile Char.isDigit
  if ds.isEmpty then none
  else some (ds.foldl (fun n c => n * 10 + ((c.toNat - 48 : Nat) : Int)) 0)

/-- `parseInt(s, 10)` on the hour field: skip leading whitespace, read an
optional sign and then leading decimal digits; no digits is NaN (`none`). -/
def jsParseIntDec (s : String) : Option Int :=
  match s.toList.dropWhile Char.isWhitespace with
  | '-' :: rest => (decDigitsVal rest).map (fun n => -n)
  | '+' :: rest => decDigitsVal rest
  | cs => decDigitsVal cs

/-- The statistics record `calculateUserStats` returns. -/
structure UserStats where
  totalHabits : Nat
  totalCompletions : Int
  longestStreak : Nat
  currentStreak : Nat
  overallCompletionRate : Int
  perfectWeeks : Nat
  earlyCompletions : Int
  lateCompletions : Int
deriving DecidableEq, Repr

/-- The mutable accumulators of the `habits.forEach` loop in
`calculateUserStats`. -/
structure StatsAcc where
  totalCompletions : Int
  longestStreak : Nat
  currentStreak : Nat
  totalDays : Int
  perfectWeeks : Nat
  earlyCompletions : Int
  lateCompletions : Int
deriving DecidableEq, Repr

/-- One iteration of the `habits.forEach` loop in `calculateUserStats`:
counters, streaks, the simplified perfect-week check on the last seven
entries, and the `targetTime`-hour based early/late completion buckets
(`if (habit.targetTime)` is falsy for null or the empty string; a NaN hour
fails both comparisons). -/
def statsStep (acc : StatsAcc) (habit : Habit) : StatsAcc :=
  let streakData := calculateStreak habit.completionHistory
  let recentWeekPerfect :=
    7 ≤ habit.completionHistory.length ∧
    (habit.completionHistory.drop (habit.completionHistory.length - 7)).all
      (fun day => day.completed)
  let hour : Option Int :=
    match habit.targetTime with
    | some s => if s = "" then none else jsParseIntDec ((s.splitOn ":").headD "")
    | none => none
  { totalCompletions := acc.totalCompletions + habit.completedDays
    totalDays := acc.totalDays + habit.totalDays
    longestStreak := max acc.longestStreak streakData.longestStreak
    currentStreak := max acc.currentStreak streakData.currentStreak
    perfectWeeks := if recentWeekPerfect then acc.perfectWeeks + 1 else acc.perfectWeeks
    earlyCompletions :=
      match hour with
      | some hr => if hr < 9 then acc.earlyCompletions + habit.completedDays
                   else acc.earlyCompletions
      | none => acc.earlyCompletions
    lateCompletions :=
      match hour with
      | some hr => if ¬ hr < 9 ∧ 20 ≤ hr then acc.lateCompletions + habit.completedDays
                   else acc.lateCompletions
      | none => acc.lateCompletions }

/-- `calculateUserStats` from `achievementSystem.js`. -/
def calculateUserStats (habits : List Habit) : UserStats :=
  if habits.length = 0 then
    { totalHabits := 0, totalCompletions := 0, longestStreak := 0
      currentStreak := 0, overallCompletionRate := 0, perfectWeeks := 0
      earlyCompletions := 0, lateCompletions := 0 }
  else
    let acc := habits.foldl statsStep
      { totalCompletions := 0, longestStreak := 0, currentStreak := 0
        totalDays := 0, perfectWeeks := 0, earlyCompletions := 0
        lateCompletions := 0 }
    { totalHabits := habits.length
      totalCompletions := acc.totalCompletions
      longestStreak := acc.longestStreak
      currentStreak := acc.currentStreak
      overallCompletionRate :=
        if 0 < acc.totalDays then
          jsRound ((acc.totalCompletions : Rat) / (acc.totalDays : Rat) * 100)
        else 0
      perfectWeeks := acc.perfectWeeks
      earlyCompletions := acc.earlyCompletions
      lateCompletions := acc.lateCompletions }

/-- One achievement definition: id and unlock condition. -/
structure AchievementDef where
  id : String
  condition : UserStats → Bool

/-- The `ACHIEVEMENTS` table in `Object.values` order. -/
def ACHIEVEMENTS : List AchievementDef :=
  [⟨"first_steps", fun s => 1 ≤ s.totalCompletions⟩,
   ⟨"week_warrior", fun s => 7 ≤ s.longestStreak⟩,
   ⟨"consistency_champion", fun s => 80 ≤ s.overallCompletionRate⟩,
   ⟨"early_bird", fun s => 10 ≤ s.earlyCompletions⟩,
   ⟨"month_master", fun s => 30 ≤ s.longestStreak⟩,
   ⟨"perfectionist", fun s => 1 ≤ s.perfectWeeks⟩,
   ⟨"habit_collector", fun s => 5 ≤ s.totalHabits⟩,
   ⟨"streak_legend", fun s => 100 ≤ s.longestStreak⟩,
   ⟨"dedication_master", fun s => 100 ≤ s.totalCompletions⟩,
   ⟨"night_owl", fun s => 10 ≤ s.lateCompletions⟩]

/-- The result of `checkAchievements`. -/
structure CheckResult where
  newAchievements : List AchievementDef
  allUnlocked : List String
  userStats : UserStats

/-- The `Object.values(ACHIEVEMENTS).forEach` loop of `checkAchievements`:
pushes ids of satisfied achievements to `allUnlocked` in order, and each
satisfied achievement not already in `currentAchievements` to
`newAchievements`. -/
def checkLoop (stats : UserStats) (currentAchievements : List String) :
    List AchievementDef → List String × List AchievementDef
  | [] => ([], [])
  | a :: rest =>
    let r := checkLoop stats currentAchievements rest
    if a.condition stats then
      (a.id :: r.1,
       if currentAchievements.contains a.id then r.2 else a :: r.2)
    else r

/-- `checkAchievements` from `achievementSystem.js`. -/
def checkAchievements (habits : List Habit) (currentAchievements : List String) :
    CheckResult :=
  let userStats := calculateUserStats habits
  let r := checkLoop userStats currentAchievements ACHIEVEMENTS
  { newAchievements := r.2, allUnlocked := r.1, userStats := userStats }

/-! ## `dataSynchronizer.js` -/

/-- An integrity issue as `validateDataIntegrity` reports it, with the
payload of its `data` field. -/
inductive Issue where
  | duplicateIds (ids : List String)
  | missingId (index : Nat) (habitName : String)
  | missingName (index : Nat) (id : String)
  | invalidFrequency (index : Nat) (id : String) (frequency : String)
  | inconsistentProgress (index : Nat) (id : String) (completedDays totalDays : Int)
  | historyMismatch (index : Nat) (id : String) (historyCompletions : Nat)
      (recordedCompletions : Int)
deriving DecidableEq, Repr

/-- The `severity` field attached to each issue type. -/
def issueSeverity : Issue → String
  | .duplicateIds _ => "high"
  | .missingId _ _ => "critical"
  | .missingName _ _ => "high"
  | .invalidFrequency _ _ _ => "medium"
  | .inconsistentProgress _ _ _ _ => "medium"
  | .historyMismatch _ _ _ _ => "low"

/-- `ids.filter((id, index) => ids.indexOf(id) !== index)`: every occurrence
that is not the first occurrence of its value. -/
def duplicatedIds (ids : List String) : List String :=
  (ids.enum.filter (fun p => ids.indexOf p.2 ≠ p.1)).map (fun p => p.2)

/-- `validateDataIntegrity` from `dataSynchronizer.js`: the duplicate-id
check, then the per-habit required-field checks, then the per-habit
consistency checks, in source order. -/
def validateDataIntegrity (habits : List Habit) : List Issue :=
  let ids := habits.map (fun h => h.id)
  let dups := duplicatedIds ids
  (if 0 < dups.length then [Issue.duplicateIds dups] else []) ++
  (habits.enum.flatMap fun p =>
    (if p.2.id = "" then [Issue.missingId p.1 p.2.name] else []) ++
    (if p.2.name = "" ∨ jsTrim p.2.name = "" then [Issue.missingName p.1 p.2.id] else []) ++
    (if ¬ (p.2.frequency = "daily" ∨ p.2.frequency = "weekly") then
      [Issue.invalidFrequency p.1 p.2.id p.2.frequency] else [])) ++
  (habits.enum.flatMap fun p =>
    (if p.2.totalDays < p.2.completedDays then
      [Issue.inconsistentProgress p.1 p.2.id p.2.completedDays p.2.totalDays] else []) ++
    (let historyCompletions := (p.2.completionHistory.filter (fun e => e.completed)).length
     if 1 < ((historyCompletions : Int) - p.2.completedDays).natAbs then
      [Issue.historyMismatch p.1 p.2.id historyCompletions p.2.completedDays] else []))

/-- The `fixedHabits.map` of the `duplicate_ids` repair: regenerate the id of
every habit at array index greater than zero whose id is in the duplicate
list; `gen` is the `generateUUID` supply and `c` its consumption counter. -/
def dupIdsFix (dups : List String) (gen : Nat → String) :
    List Habit → Nat → Nat → List Habit × Nat
  | [], _, c => ([], c)
  | h :: t, i, c =>
    if h.id ∈ dups ∧ 0 < i then
      let r := dupIdsFix dups gen t (i + 1) (c + 1)
      ({ h with id := gen c } :: r.1, r.2)
    else
      let r := dupIdsFix dups gen t (i + 1) c
      (h :: r.1, r.2)

/-- One iteration of the `for (const issue of issues)` loop in
`fixDataIntegrity`; `missing_name` and `history_mismatch` have no repair
case. The out-of-range guard models `if (fixedHabits[issue.data.index])`. -/
def fixStep (gen : Nat → String) (st : List Habit × Nat) (issue : Issue) :
    List Habit × Nat :=
  match issue with
  | .duplicateIds dups => dupIdsFix dups gen st.1 0 st.2
  | .missingId idx _ =>
    (match st.1[idx]? with
     | some h => (st.1.set idx { h with id := gen st.2 }, st.2 + 1)
     | none => st)
  | .invalidFrequency idx _ _ =>
    (match st.1[idx]? with
     | some h => (st.1.set idx { h with frequency := "daily" }, st.2)
     | none => st)
  | .inconsistentProgress idx _ _ _ =>
    (match st.1[idx]? with
     | some h =>
       (st.1.set idx
         { h with completedDays :=
            ((h.completionHistory.filter (fun e => e.completed)).length : Int) }, st.2)
     | none => st)
  | _ => st

/-- `fixDataIntegrity` from `dataSynchronizer.js`, with `generateUUID`
modelled as the fresh-id supply `gen` consumed left to right. -/
def fixDataIntegrity (habits : List Habit) (issues : List Issue)
    (gen : Nat → String) : List Habit :=
  (issues.foldl (fixStep gen) (habits, 0)).1

/-! ## Streak lemmas -/

theorem currentStreakGo_one (l : List CompletionEntry) : currentStreakGo 1 l = 1 := by
  induction l with
  | nil => rfl
  | cons e rest ih => by_cases h : e.completed <;> simp [currentStreakGo, h, ih]

/-- The maximum of a list of naturals. -/
def listMax (l : List Nat) : Nat := l.foldr max 0

/-- Add `t` to the head entry of a run-length list. -/
def addHead (t : Nat) : List Nat → List Nat
  | [] => []
  | h :: tl => (h + t) :: tl

theorem completedRunLengths_ne_nil (l : List CompletionEntry) :
    completedRunLengths l ≠ [] := by
  cases l with
  | nil => simp [completedRunLengths]
  | cons e rest =>
    simp only [completedRunLengths]
    by_cases h : e.completed <;> simp only [h, if_true, if_false]
    · cases completedRunLengths rest <;> simp
    · simp

theorem longestStreakLoop_eq (l : List CompletionEntry) :
    ∀ temp longest : Nat, temp ≤ longest →
    longestStreakLoop temp longest l =
      max longest (listMax (addHead temp (completedRunLengths l))) := by
  induction l with
  | nil =>
    intro temp longest h
    simp only [longestStreakLoop, completedRunLengths, addHead, listMax, List.foldr]
    omega
  | cons e rest ih =>
    intro temp longest h
    obtain ⟨rh, rt, hr⟩ : ∃ rh rt, completedRunLengths rest = rh :: rt := by
      cases hx : completedRunLengths rest with
      | nil => exact absurd hx (completedRunLengths_ne_nil rest)
      | cons a b => exact ⟨a, b, rfl⟩
    by_cases hc : e.completed
    · have step := ih (temp + 1) (max longest (temp + 1)) (Nat.le_max_right _ _)
      rw [hr] at step
      simp only [addHead, listMax, List.foldr] at step
      simp only [longestStreakLoop, hc, if_true, completedRunLengths, hr]
      rw [step]
      simp only [addHead, listMax, List.foldr]
      omega
    · have step := ih 0 longest (Nat.zero_le _)
      rw [hr] at step
      simp only [addHead, listMax, List.foldr] at step
      rw [longestStreakLoop, if_neg hc]
      rw [step]
      simp only [completedRunLengths, hc, if_false, hr, addHead, listMax, List.foldr]
      omega

theorem longestStreakLoop_spec (l : List CompletionEntry) :
    longestStreakLoop 0 0 l = specLongestStreak l := by
  have h := longestStreakLoop_eq l 0 0 (Nat.le_refl 0)
  obtain ⟨rh, rt, hr⟩ : ∃ rh rt, completedRunLengths l = rh :: rt := by
    cases hx : completedRunLengths l with
    | nil => exact absurd hx (completedRunLengths_ne_nil l)
    | cons a b => exact ⟨a, b, rfl⟩
  simp only [h, specLongestStreak, hr, addHead, listMax, List.foldr]
  omega

theorem stableSort_length {α : Type} (k : α → Int) (l : List α) :
    (stableSort k l).length = l.length :=
  (stableSort_perm k l).length_eq

/-- Reversing the newest-first sort yields the chronologically ascending sort
whenever the dates are pairwise distinct. -/
theorem reverse_sortDesc_eq_chrono (l : List CompletionEntry)
    (hnd : List.Pairwise (fun a b => a.date ≠ b.date) l) :
    (stableSort (fun e => -e.date) l).reverse = chronoSorted l := by
  have hperm₁ : List.Perm (stableSort (fun e => -e.date) l).reverse l :=
    (List.reverse_perm _).trans (stableSort_perm _ l)
  have hperm₂ : List.Perm l (chronoSorted l) := (stableSort_perm _ l).symm
  have hsymm : ∀ {x y : CompletionEntry}, x.date ≠ y.date → y.date ≠ x.date :=
    fun h => h.symm
  have hnd₁ : List.Pairwise (fun a b => a.date ≠ b.date)
      (stableSort (fun e => -e.date) l).reverse :=
    ((hperm₁.pairwise_iff hsymm).mpr hnd)
  have hnd₂ : List.Pairwise (fun a b => a.date ≠ b.date) (chronoSorted l) :=
    ((hperm₂.pairwise_iff hsymm).mp hnd)
  apply strictSorted_unique (fun e => e.date) _ _ (hperm₁.trans hperm₂)
  · have hle : List.Pairwise (fun a b : CompletionEntry => b.date ≤ a.date)
        (stableSort (fun e => -e.date) l) :=
      (stableSort_pairwise (fun e => -e.date) l).imp (by omega)
    have hlt := List.pairwise_reverse.mpr hle
    exact (hnd₁.and hlt).imp (fun hab => lt_of_le_of_ne hab.2 hab.1)
  · have hle : List.Pairwise (fun a b : CompletionEntry => a.date ≤ b.date)
        (chronoSorted l) := stableSort_pairwise (fun e => e.date) l
    exact (hnd₂.and hle).imp (fun hab => lt_of_le_of_ne hab.2 hab.1)

/-- The ten-day history of Example 2 of the spec (also the mock history of
the unit tests): chronological days 1..10 with days 3 and 9 missed. -/
def exampleHistory : List CompletionEntry :=
  [⟨1, true⟩, ⟨2, true⟩, ⟨3, false⟩, ⟨4, true⟩, ⟨5, true⟩,
   ⟨6, true⟩, ⟨7, true⟩, ⟨8, true⟩, ⟨9, false⟩, ⟨10, true⟩]

/-- C2 (counterexample): a history whose two newest entries are both
completed yields `currentStreak = 1`, not the count `2` of consecutive
most-recent completed entries the claim states. -/
theorem C2_counterexample :
    (calculateStreak [⟨1, true⟩, ⟨0, true⟩]).currentStreak = 1 ∧
    specCurrentStreak [⟨1, true⟩, ⟨0, true⟩] = 2 ∧
    (calculateStreak [⟨1, true⟩, ⟨0, true⟩]).currentStreak ≠
      specCurrentStreak [⟨1, true⟩, ⟨0, true⟩] := by
  decide

/-- C2 (amended): `currentStreak` equals the count of consecutive most-recent
completed entries capped at 1, i.e. 1 when the newest entry after sorting
descending is completed and 0 otherwise (in particular a false entry at the
most recent position yields 0). -/
theorem C2_amended (h : List CompletionEntry) :
    (calculateStreak h).currentStreak = min (specCurrentStreak h) 1 := by
  by_cases hlen : h.length = 0
  · have : h = [] := List.length_eq_zero.mp hlen
    subst this
    decide
  · have hslen : (stableSort (fun e => -e.date) h).length = h.length :=
      stableSort_length _ h
    rw [calculateStreak, if_neg hlen]
    rw [specCurrentStreak]
    cases hs : stableSort (fun e => -e.date) h with
    | nil => rw [hs] at hslen; simp at hslen; omega
    | cons e t =>
      by_cases hc : e.completed
      · simp [currentStreakLoop, hc, currentStreakGo_one, List.takeWhile_cons]
      · simp [currentStreakLoop, hc, List.takeWhile_cons]

/-- C2 (witness): the amended equation at the Example 2 history. -/
theorem C2_witness :
    (calculateStreak exampleHistory).currentStreak =
      min (specCurrentStreak exampleHistory) 1 :=
  C2_amended exampleHistory

/-- C6: for a history with pairwise-distinct dates, `longestStreak` is the
maximum run length of consecutive completed entries in the chronologically
sorted log (adjacency of entries actually present, gaps not inferred); on
the Example 2 history the result is `longestStreak = 5`, `currentStreak = 1`. -/
theorem C6_longestStreak (h : List CompletionEntry)
    (hnd : List.Pairwise (fun a b => a.date ≠ b.date) h) :
    (calculateStreak h).longestStreak = specLongestStreak (chronoSorted h) ∧
    calculateStreak exampleHistory = { currentStreak := 1, longestStreak := 5 } := by
  refine ⟨?_, by decide⟩
  by_cases hlen : h.length = 0
  · have : h = [] := List.length_eq_zero.mp hlen
    subst this
    decide
  · rw [calculateStreak, if_neg hlen]
    show longestStreakLoop 0 0 (stableSort (fun e => -e.date) h).reverse = _
    rw [longestStreakLoop_spec, reverse_sortDesc_eq_chrono h hnd]

/-- C6 (witness): the main equation and the example instantiated at the
Example 2 history, whose dates are pairwise distinct. -/
theorem C6_witness :
    (calculateStreak exampleHistory).longestStreak =
      specLongestStreak (chronoSorted exampleHistory) ∧
    calculateStreak exampleHistory = { currentStreak := 1, longestStreak := 5 } :=
  C6_longestStreak exampleHistory (by decide)

/-! ## Completion percentage -/

theorem jsRound_nonneg (q : Rat) (h : 0 ≤ q) : 0 ≤ jsRound q := by
  rw [jsRound]
  exact Int.le_floor.mpr (by push_cast; linarith)

theorem jsRound_mono (q₁ q₂ : Rat) (h : q₁ ≤ q₂) : jsRound q₁ ≤ jsRound q₂ :=
  Int.floor_le_floor (by linarith)

theorem completionPercentage_eval (c t : Nat) (hist : Option (List CompletionEntry)) :
    calculateCompletionPercentage (some ⟨some (c : Rat), some (t : Rat), hist⟩) =
      if t = 0 then some 0
      else some (min ((jsRound ((c : Rat) / (t : Rat) * 100) : Int) : Rat) 100) := by
  by_cases ht : t = 0
  · subst ht
    simp [calculateCompletionPercentage]
  · have ht' : ((t : Rat)) ≠ 0 := by exact_mod_cast ht
    simp only [calculateCompletionPercentage, ht, if_false]
    rw [if_neg]
    simp only [Option.some.injEq]
    exact fun hcon => ht' (by simpa using hcon)

/-- C9: for nonnegative integer counters, `calculateCompletionPercentage`
returns `round(completedDays/totalDays*100)` capped at 100 (0 when the habit
is absent or `totalDays = 0`), its value lies in [0, 100] even when
`completedDays > totalDays`, it is monotone non-decreasing in `completedDays`
for fixed `totalDays`, and `(7, 10)` yields 70. -/
theorem C9_completionPercentage (c t : Nat) (hist : Option (List CompletionEntry)) :
    (calculateCompletionPercentage (some ⟨some (c : Rat), some (t : Rat), hist⟩) =
      if t = 0 then some 0
      else some (min ((jsRound ((c : Rat) / (t : Rat) * 100) : Int) : Rat) 100)) ∧
    (∃ r : Rat, calculateCompletionPercentage
        (some ⟨some (c : Rat), some (t : Rat), hist⟩) = some r ∧ 0 ≤ r ∧ r ≤ 100) ∧
    (∀ c₂ : Nat, c ≤ c₂ →
      ∃ r r₂ : Rat,
        calculateCompletionPercentage (some ⟨some (c : Rat), some (t : Rat), hist⟩) = some r ∧
        calculateCompletionPercentage (some ⟨some (c₂ : Rat), some (t : Rat), hist⟩) = some r₂ ∧
        r ≤ r₂) ∧
    calculateCompletionPercentage none = some 0 ∧
    calculateCompletionPercentage (some ⟨some 7, some 10, hist⟩) = some 70 := by
  refine ⟨completionPercentage_eval c t hist, ?_, ?_,
    by simp [calculateCompletionPercentage], ?_⟩
  · by_cases ht : t = 0
    · exact ⟨0, by rw [completionPercentage_eval, if_pos ht], le_refl 0, by norm_num⟩
    · refine ⟨min ((jsRound ((c : Rat) / (t : Rat) * 100) : Int) : Rat) 100,
        by rw [completionPercentage_eval, if_neg ht], ?_, min_le_right _ _⟩
      have hq : (0 : Rat) ≤ (c : Rat) / (t : Rat) * 100 := by positivity
      have h0 : (0 : Int) ≤ jsRound ((c : Rat) / (t : Rat) * 100) := jsRound_nonneg _ hq
      exact le_min (by exact_mod_cast h0) (by norm_num)
  · intro c₂ hc
    by_cases ht : t = 0
    · exact ⟨0, 0, by rw [completionPercentage_eval, if_pos ht],
        by rw [completionPercentage_eval, if_pos ht], le_refl 0⟩
    · have htpos : (0 : Rat) < (t : Rat) := by
        exact_mod_cast Nat.pos_of_ne_zero ht
      have hdiv : (c : Rat) / (t : Rat) * 100 ≤ (c₂ : Rat) / (t : Rat) * 100 := by
        have hcc : (c : Rat) ≤ (c₂ : Rat) := by exact_mod_cast hc
        gcongr
      refine ⟨_, _, by rw [completionPercentage_eval, if_neg ht],
        by rw [completionPercentage_eval, if_neg ht], ?_⟩
      have hr := jsRound_mono _ _ hdiv
      have : ((jsRound ((c : Rat) / (t : Rat) * 100) : Int) : Rat) ≤
          ((jsRound ((c₂ : Rat) / (t : Rat) * 100) : Int) : Rat) := by exact_mod_cast hr
      exact min_le_min this (le_refl 100)
  · have h7 : ((7 : Nat) : Rat) = 7 := by norm_num
    have h10 : ((10 : Nat) : Rat) = 10 := by norm_num
    have := completionPercentage_eval 7 10 hist
    rw [h7, h10] at this
    rw [this]
    have h70 : jsRound (70 : Rat) = 70 := by
      rw [jsRound, Int.floor_eq_iff]; norm_num
    norm_num [h70]

/-- C9 (witness): monotonicity instantiated at `(7, 10)` and `(8, 10)`. -/
theorem C9_witness :
    ∃ r r₂ : Rat,
      calculateCompletionPercentage
        (some ⟨some ((7 : Nat) : Rat), some ((10 : Nat) : Rat), none⟩) = some r ∧
      calculateCompletionPercentage
        (some ⟨some ((8 : Nat) : Rat), some ((10 : Nat) : Rat), none⟩) = some r₂ ∧
      r ≤ r₂ :=
  (C9_completionPercentage 7 10 none).2.2.1 8 (by decide)

/-- C4: the claim states the Progress Calculator functions degrade to safe
zero defaults on malformed input, but on a habit whose `totalDays` field is
missing `calculateCompletionPercentage` returns NaN (`none`), not 0, and
`calculateConsistencyScore` returns a NaN score rated Needs Improvement, not
the `{score: 0, rating: No Data}` default; the code contradicts its own
documented 0..100 contract. -/
theorem C4_nan_leak :
    calculateCompletionPercentage (some ⟨some 5, none, some [⟨0, true⟩]⟩) = none ∧
    calculateConsistencyScore (some ⟨some 5, none, some [⟨0, true⟩]⟩) ⟨0, 0, "t"⟩ =
      { score := none, rating := "Needs Improvement" } ∧
    (none : Option Rat) ≠ some 0 ∧
    ({ score := none, rating := "Needs Improvement" } : ConsistencyResult) ≠
      { score := some 0, rating := "No Data" } := by
  refine ⟨rfl, rfl, by decide, by decide⟩

/-! ## Stored-data validity -/

theorem storedDataIsValid_iff (d : StoredData) :
    storedDataIsValid d = true ↔
    (∀ hb ∈ d.habits, validateHabit hb = []) ∧ d.lastUpdated ≠ "" ∧ d.version ≠ "" := by
  rw [storedDataIsValid, decide_eq_true_eq, validateStoredData]
  simp only [List.append_eq_nil, List.flatMap_eq_nil_iff]
  constructor
  · rintro ⟨⟨henum, hlast⟩, hver⟩
    refine ⟨?_, ?_, ?_⟩
    · intro hb hmem
      obtain ⟨i, hi⟩ := List.mem_iff_get?.mp hmem
      have hpair : (i, hb) ∈ d.habits.enum := List.mem_enum_iff_get?.mpr hi
      have := henum (i, hb) hpair
      by_cases hv : validateHabit hb = []
      · exact hv
      · rw [if_neg hv] at this
        simp at this
    · intro hcon
      rw [if_pos hcon] at hlast
      simp at hlast
    · intro hcon
      rw [if_pos hcon] at hver
      simp at hver
  · rintro ⟨hhabits, hlast, hver⟩
    refine ⟨⟨?_, by rw [if_neg hlast]⟩, by rw [if_neg hver]⟩
    intro p hp
    have hmem : p.2 ∈ d.habits :=
      List.get?_mem (List.mem_enum_iff_get?.mp hp)
    rw [if_pos (hhabits p.2 hmem)]

/-- C5: `addHabit` with an empty name returns null and performs no store
write (the habit fails `saveHabits` validation); in general it returns the
created habit exactly when the save succeeds, and returns null with the store
unchanged on any failure, including a failed underlying write. -/
theorem C5_addHabit (store : Option StoredData) (now : JsDate) (writeOk : Bool)
    (newId : String) :
    (addHabit store ⟨"", "daily", none⟩ newId now writeOk = (none, store)) ∧
    (∀ data : HabitData,
      (writeOk = false → (addHabit store data newId now writeOk).1 = none ∧
        (addHabit store data newId now writeOk).2 = store) ∧
      ((addHabit store data newId now writeOk).1 = none ∧
         (addHabit store data newId now writeOk).2 = store ∨
       writeOk = true ∧
         (addHabit store data newId now writeOk).1 = some (mkNewHabit data newId now) ∧
         (addHabit store data newId now writeOk).2 =
           some ⟨getHabits store now ++ [mkNewHabit data newId now], now.iso, "1.0.0"⟩)) := by
  constructor
  · have hbad : validateHabit (mkNewHabit ⟨"", "daily", none⟩ newId now) ≠ [] := by
      simp [validateHabit, mkNewHabit]
    have hinvalid : storedDataIsValid
        ⟨getHabits store now ++ [mkNewHabit ⟨"", "daily", none⟩ newId now],
          now.iso, "1.0.0"⟩ = false := by
      rw [Bool.eq_false_iff]
      intro hcon
      have := (storedDataIsValid_iff _).mp hcon
      exact hbad (this.1 _ (List.mem_append_right _ (List.mem_singleton_self _)))
    simp only [addHabit, saveHabits, hinvalid]
    simp
  · intro data
    by_cases hvalid : storedDataIsValid
        ⟨getHabits store now ++ [mkNewHabit data newId now], now.iso, "1.0.0"⟩
    · cases writeOk with
      | false =>
        simp only [addHabit, saveHabits, hvalid]
        simp
      | true =>
        have h1 : addHabit store data newId now true =
            (some (mkNewHabit data newId now),
             some ⟨getHabits store now ++ [mkNewHabit data newId now], now.iso, "1.0.0"⟩) := by
          simp only [addHabit, saveHabits, hvalid]
          simp
        exact ⟨fun h => absurd h (by decide),
          Or.inr ⟨rfl, by rw [h1], by rw [h1]⟩⟩
    · have hvalid' : storedDataIsValid
          ⟨getHabits store now ++ [mkNewHabit data newId now], now.iso, "1.0.0"⟩ = false :=
        Bool.eq_false_iff.mpr hvalid
      simp only [addHabit, saveHabits, hvalid']
      simp

/-- C5 (witness): a write failure at a concrete input returns null and
leaves the store unchanged. -/
theorem C5_witness :
    (addHabit none ⟨"Run", "daily", none⟩ "id-1" ⟨0, 0, "t"⟩ false).1 = none ∧
    (addHabit none ⟨"Run", "daily", none⟩ "id-1" ⟨0, 0, "t"⟩ false).2 = none :=
  ((C5_addHabit none ⟨0, 0, "t"⟩ false "id-1").2 ⟨"Run", "daily", none⟩).1 rfl

/-! ## Achievement checking -/

theorem checkLoop_allUnlocked (stats : UserStats) (cur : List String)
    (l : List AchievementDef) :
    (checkLoop stats cur l).1 =
      (l.filter (fun a => a.condition stats)).map (fun a => a.id) := by
  induction l with
  | nil => rfl
  | cons a rest ih =>
    by_cases h : a.condition stats <;> simp [checkLoop, h, ih]

theorem checkLoop_new_nil (stats : UserStats) (cur : List String)
    (l : List AchievementDef)
    (h : ∀ a ∈ l, a.condition stats = true → cur.contains a.id = true) :
    (checkLoop stats cur l).2 = [] := by
  induction l with
  | nil => rfl
  | cons a rest ih =>
    have ih' := ih (fun b hb hc => h b (List.mem_cons_of_mem _ hb) hc)
    by_cases hc : a.condition stats
    · have hm : a.id ∈ cur := List.elem_iff.mp (h a (List.mem_cons_self _ _) hc)
      simp [checkLoop, hc, hm, ih']
    · simp [checkLoop, hc, ih']

/-- C7: feeding the full unlocked list of a first `checkAchievements` pass
back into a second pass yields no new achievements, and evaluation is a pure
function of its arguments (two calls with the same inputs agree). -/
theorem C7_checkAchievements (habits : List Habit) :
    (checkAchievements habits
      (checkAchievements habits []).allUnlocked).newAchievements = [] ∧
    (∀ current : List String,
      checkAchievements habits current = checkAchievements habits current) := by
  refine ⟨?_, fun _ => rfl⟩
  show (checkLoop (calculateUserStats habits)
    (checkAchievements habits []).allUnlocked ACHIEVEMENTS).2 = []
  apply checkLoop_new_nil
  intro a ha hcond
  show ((checkAchievements habits []).allUnlocked).contains a.id = true
  have : (checkAchievements habits []).allUnlocked =
      (ACHIEVEMENTS.filter (fun a => a.condition (calculateUserStats habits))).map
        (fun a => a.id) :=
    checkLoop_allUnlocked _ _ _
  rw [this]
  have hmem : a.id ∈ (ACHIEVEMENTS.filter
      (fun a => a.condition (calculateUserStats habits))).map (fun a => a.id) :=
    List.mem_map_of_mem _ (List.mem_filter.mpr ⟨ha, hcond⟩)
  exact List.elem_iff.mpr hmem

/-- C7 (witness): the idempotence equation at a concrete one-habit list. -/
theorem C7_witness :
    (checkAchievements [⟨"a", "A", "daily", none, 0, 3, 5,
        [⟨1, true⟩, ⟨2, true⟩], true, none⟩]
      (checkAchievements [⟨"a", "A", "daily", none, 0, 3, 5,
          [⟨1, true⟩, ⟨2, true⟩], true, none⟩] []).allUnlocked).newAchievements = [] :=
  (C7_checkAchievements [⟨"a", "A", "daily", none, 0, 3, 5,
    [⟨1, true⟩, ⟨2, true⟩], true, none⟩]).1

/-! ## Duplicate-id repair -/

theorem dupIdsFix_spec (dups : List String) (gen : Nat → String) :
    ∀ (l : List Habit) (i c : Nat),
      (dupIdsFix dups gen l i c).1.length = l.length ∧
      ∀ (j : Nat) (h : Habit), l[j]? = some h →
        (¬(h.id ∈ dups ∧ 0 < i + j) → (dupIdsFix dups gen l i c).1[j]? = some h) ∧
        ((h.id ∈ dups ∧ 0 < i + j) →
          ∃ n, (dupIdsFix dups gen l i c).1[j]? = some { h with id := gen n }) := by
  intro l
  induction l with
  | nil =>
    intro i c
    exact ⟨rfl, fun j h hj => by simp at hj⟩
  | cons x t ih =>
    intro i c
    by_cases hx : x.id ∈ dups ∧ 0 < i
    · have hd : (dupIdsFix dups gen (x :: t) i c).1 =
          { x with id := gen c } :: (dupIdsFix dups gen t (i + 1) (c + 1)).1 := by
        simp [dupIdsFix, hx]
      constructor
      · rw [hd]
        simp [(ih (i + 1) (c + 1)).1]
      · intro j h hj
        cases j with
        | zero =>
          simp only [List.getElem?_cons_zero, Option.some.injEq] at hj
          subst hj
          refine ⟨fun hcon => absurd ⟨hx.1, by omega⟩ hcon, fun _ => ⟨c, ?_⟩⟩
          rw [hd]
          simp
        | succ j' =>
          simp only [List.getElem?_cons_succ] at hj
          have hrec := (ih (i + 1) (c + 1)).2 j' h hj
          have hiff : (h.id ∈ dups ∧ 0 < (i + 1) + j') ↔ (h.id ∈ dups ∧ 0 < i + (j' + 1)) := by
            constructor
            · rintro ⟨hm, _⟩; exact ⟨hm, by omega⟩
            · rintro ⟨hm, _⟩; exact ⟨hm, by omega⟩
          rw [hd]
          simp only [List.getElem?_cons_succ]
          exact ⟨fun hcon => hrec.1 (fun hcc => hcon (hiff.mp hcc)),
            fun hcc => hrec.2 (hiff.mpr hcc)⟩
    · have hd : (dupIdsFix dups gen (x :: t) i c).1 =
          x :: (dupIdsFix dups gen t (i + 1) c).1 := by
        simp [dupIdsFix, hx]
      constructor
      · rw [hd]
        simp [(ih (i + 1) c).1]
      · intro j h hj
        cases j with
        | zero =>
          simp only [List.getElem?_cons_zero, Option.some.injEq] at hj
          subst hj
          refine ⟨fun _ => ?_, fun hcon => absurd (by simpa using hcon) hx⟩
          rw [hd]
          simp
        | succ j' =>
          simp only [List.getElem?_cons_succ] at hj
          have hrec := (ih (i + 1) c).2 j' h hj
          have hiff : (h.id ∈ dups ∧ 0 < (i + 1) + j') ↔ (h.id ∈ dups ∧ 0 < i + (j' + 1)) := by
            constructor
            · rintro ⟨hm, _⟩; exact ⟨hm, by omega⟩
            · rintro ⟨hm, _⟩; exact ⟨hm, by omega⟩
          rw [hd]
          simp only [List.getElem?_cons_succ]
          exact ⟨fun hcon => hrec.1 (fun hcc => hcon (hiff.mp hcc)),
            fun hcc => hrec.2 (hiff.mpr hcc)⟩

/-- A minimal otherwise-valid habit with a given id and name. -/
def plainHabit (i n : String) : Habit :=
  ⟨i, n, "daily", none, 0, 0, 0, [], false, none⟩

/-- The Example 4 collection: ids `["a", "a", "b"]`. -/
def dupExample : List Habit :=
  [plainHabit "a" "First", plainHabit "a" "Second", plainHabit "b" "Third"]

/-- C8 (counterexample): on ids `["b", "a", "a"]` the repair regenerates the
id of the habit at index 1 even though it is the first occurrence of the
duplicate group `a`, contradicting the claim that the first occurrence of
each duplicate group is skipped. -/
theorem C8_counterexample :
    (fixDataIntegrity [plainHabit "b" "First", plainHabit "a" "Second",
        plainHabit "a" "Third"]
      (validateDataIntegrity [plainHabit "b" "First", plainHabit "a" "Second",
        plainHabit "a" "Third"])
      (fun n => "uuid-" ++ toString n)).map (fun h => h.id) =
      ["b", "uuid-0", "uuid-1"] ∧
    ((fixDataIntegrity [plainHabit "b" "First", plainHabit "a" "Second",
        plainHabit "a" "Third"]
      (validateDataIntegrity [plainHabit "b" "First", plainHabit "a" "Second",
        plainHabit "a" "Third"])
      (fun n => "uuid-" ++ toString n))[1]?).map (fun h => h.id) ≠ some "a" := by
  constructor <;> decide

/-- C8 (amended): `validateIntegrity` on `["a", "a", "b"]` reports exactly
one `duplicate_ids` issue of severity high with data `["a"]`, and repair
regenerates only the second habit, keeping the first and third unchanged; in
general, repair of a `duplicate_ids` issue regenerates every habit whose
array index is positive and whose id is in the duplicate list — only the
habit at array index 0 is exempt, regardless of duplicate groups. -/
theorem C8_duplicateRepair (gen : Nat → String) (habits : List Habit)
    (dups : List String) :
    (validateDataIntegrity dupExample = [Issue.duplicateIds ["a"]] ∧
     issueSeverity (Issue.duplicateIds ["a"]) = "high" ∧
     fixDataIntegrity dupExample (validateDataIntegrity dupExample) gen =
       [plainHabit "a" "First",
        { plainHabit "a" "Second" with id := gen 0 },
        plainHabit "b" "Third"]) ∧
    (∀ (j : Nat) (h : Habit), habits[j]? = some h →
      (¬(h.id ∈ dups ∧ 0 < j) →
        (fixDataIntegrity habits [Issue.duplicateIds dups] gen)[j]? = some h) ∧
      ((h.id ∈ dups ∧ 0 < j) → ∃ n,
        (fixDataIntegrity habits [Issue.duplicateIds dups] gen)[j]? =
          some { h with id := gen n })) := by
  constructor
  · have hv : validateDataIntegrity dupExample = [Issue.duplicateIds ["a"]] := by decide
    refine ⟨hv, rfl, ?_⟩
    rw [hv]
    show (dupIdsFix ["a"] gen dupExample 0 0).1 = _
    simp [dupIdsFix, dupExample, plainHabit]
  · intro j h hj
    have hfix : fixDataIntegrity habits [Issue.duplicateIds dups] gen =
        (dupIdsFix dups gen habits 0 0).1 := rfl
    have := (dupIdsFix_spec dups gen habits 0 0).2 j h hj
    rw [hfix]
    simpa using this

/-- C8 (witness): the general repair rule instantiated at index 1 of the
Example 4 collection. -/
theorem C8_witness :
    ∃ n : Nat, (fixDataIntegrity dupExample [Issue.duplicateIds ["a"]]
        (fun k => "uuid-" ++ toString k))[1]? =
      some { plainHabit "a" "Second" with id := "uuid-" ++ toString n } :=
  ((C8_duplicateRepair (fun k => "uuid-" ++ toString k) dupExample ["a"]).2
    1 (plainHabit "a" "Second") (by rfl)).2 ⟨by decide, by decide⟩

/-! ## Recalculation invariants -/

theorem ite_singleton_nil {c : Prop} [Decidable c] (m : String) :
    ((if c then [m] else ([] : List String)) = []) ↔ ¬c := by
  split_ifs with hc <;> simp [hc]

theorem validateHabit_nil_iff (h : Habit) :
    validateHabit h = [] ↔
    ¬(h.name = "" ∨ (jsTrim h.name).length = 0) ∧
    (h.frequency = "daily" ∨ h.frequency = "weekly") ∧
    0 ≤ h.completedDays ∧ 0 ≤ h.totalDays := by
  rw [validateHabit]
  simp only [List.append_eq_nil, ite_singleton_nil, not_not, not_lt]
  tauto

theorem validateHabit_recalc (now : JsDate) (h : Habit)
    (hv : validateHabit h = []) : validateHabit (recalcHabit now h) = [] := by
  rw [validateHabit_nil_iff] at hv ⊢
  refine ⟨hv.1, hv.2.1, ?_, ?_⟩
  · exact Int.ofNat_nonneg _
  · exact le_trans (Int.ofNat_nonneg _) (le_max_left _ _)

theorem find?_today_iff (l : List CompletionEntry) (today : Int)
    (hnd : List.Pairwise (fun a b => a.date ≠ b.date) l) :
    ((match l.find? (fun e => e.date == today) with
      | some e => e.completed
      | none => false) = true) ↔
    ∃ e ∈ l, e.date = today ∧ e.completed = true := by
  induction l with
  | nil => simp
  | cons x t ih =>
    rcases List.pairwise_cons.mp hnd with ⟨hx, ht⟩
    by_cases hd : x.date = today
    · rw [List.find?_cons_of_pos _ (by simpa using hd)]
      constructor
      · intro hc
        exact ⟨x, List.mem_cons_self _ _, hd, hc⟩
      · rintro ⟨e, he, hed, hec⟩
        rcases List.mem_cons.mp he with rfl | he'
        · exact hec
        · exact absurd (hd.trans hed.symm) (hx e he')
    · rw [List.find?_cons_of_neg _ (by simpa using hd)]
      rw [ih ht]
      constructor
      · rintro ⟨e, he, hed, hec⟩
        exact ⟨e, List.mem_cons_of_mem _ he, hed, hec⟩
      · rintro ⟨e, he, hed, hec⟩
        rcases List.mem_cons.mp he with rfl | he'
        · exact absurd hed hd
        · exact ⟨e, he', hed, hec⟩

/-- A habit whose stored history holds two entries for the same day, the
earlier one incomplete: schema validation accepts it. -/
def twoTodayHabit : Habit :=
  ⟨"x", "Run", "daily", none, 0, 0, 0, [⟨0, false⟩, ⟨0, true⟩], false, none⟩

/-- C3 (counterexample): a schema-valid collection may hold two history
entries for today; `recalculateAllHabitsProgress` sets `isCompleted` from the
first matching entry (false) although a completed entry for today exists, so
the claimed biconditional fails. -/
theorem C3_counterexample :
    storedDataIsValid ⟨[twoTodayHabit], "u", "1.0.0"⟩ = true ∧
    (recalculateAllHabitsProgress (some ⟨[twoTodayHabit], "u", "1.0.0"⟩)
        ⟨0, 0, "t"⟩ true).2 =
      some ⟨[{ twoTodayHabit with
                completedDays := 1
                totalDays := 2
                isCompleted := false
                lastUpdated := some "t" }], "t", "1.0.0"⟩ ∧
    (twoTodayHabit.completionHistory.any fun e => e.date == 0 && e.completed) = true := by
  refine ⟨by decide, by decide, by decide⟩

/-- C3 (amended): for every schema-valid collection whose habits each have at
most one history entry per date, after `recalculateAllHabitsProgress` every
habit of the resulting collection has `completedDays` equal to the count of
completed history entries, `completedDays ≤ totalDays`, and `isCompleted`
true exactly when the history has a completed entry for today. -/
theorem C3_recalcInvariants (sd : StoredData) (now : JsDate)
    (hvalid : storedDataIsValid sd = true)
    (hiso : now.iso ≠ "")
    (hnd : ∀ h ∈ sd.habits,
      List.Pairwise (fun a b => a.date ≠ b.date) h.completionHistory) :
    recalculateAllHabitsProgress (some sd) now true =
      (true, some ⟨sd.habits.map (recalcHabit now), now.iso, "1.0.0"⟩) ∧
    ∀ hb ∈ sd.habits.map (recalcHabit now),
      hb.completedDays =
        ((hb.completionHistory.filter (fun e => e.completed)).length : Int) ∧
      hb.completedDays ≤ hb.totalDays ∧
      (hb.isCompleted = true ↔
        ∃ e ∈ hb.completionHistory, e.date = now.todayCode ∧ e.completed = true) := by
  have hget : getHabits (some sd) now = sd.habits := by
    simp [getHabits, hvalid]
  have hmapped : storedDataIsValid
      ⟨sd.habits.map (recalcHabit now), now.iso, "1.0.0"⟩ = true := by
    rw [storedDataIsValid_iff]
    refine ⟨?_, hiso, ?_⟩
    · intro hb hmem
      obtain ⟨h, hh, rfl⟩ := List.mem_map.mp hmem
      exact validateHabit_recalc now h (((storedDataIsValid_iff sd).mp hvalid).1 h hh)
    · show ("1.0.0" : String) ≠ ""
      decide
  constructor
  · rw [recalculateAllHabitsProgress, hget, saveHabits]
    simp [hmapped]
  · intro hb hmem
    obtain ⟨h, hh, rfl⟩ := List.mem_map.mp hmem
    refine ⟨by simp [recalcHabit], ?_, ?_⟩
    · show ((((h.completionHistory.filter (fun e => e.completed)).length : Nat) : Int)) ≤
        max ((h.completionHistory.length : Nat) : Int) (daysSinceCreation now h.createdAt)
      have hle : (h.completionHistory.filter (fun e => e.completed)).length ≤
          h.completionHistory.length := List.length_filter_le _ _
      exact le_trans (by exact_mod_cast hle) (le_max_left _ _)
    · show ((match h.completionHistory.find? (fun e => e.date == now.todayCode) with
        | some e => e.completed
        | none => false) = true) ↔ _
      exact find?_today_iff h.completionHistory now.todayCode (hnd h hh)

/-- C3 (witness): the amended statement at a concrete one-habit valid store. -/
theorem C3_witness :
    recalculateAllHabitsProgress
        (some ⟨[⟨"x", "Run", "daily", none, 0, 0, 0, [⟨0, true⟩], false, none⟩],
          "u", "1.0.0"⟩) ⟨0, 0, "t"⟩ true =
      (true, some ⟨[⟨"x", "Run", "daily", none, 0, 0, 0, [⟨0, true⟩], false,
          none⟩].map (recalcHabit ⟨0, 0, "t"⟩), "t", "1.0.0"⟩) ∧
    ∀ hb ∈ [⟨"x", "Run", "daily", none, 0, 0, 0, [⟨0, true⟩], false,
        none⟩].map (recalcHabit ⟨0, 0, "t"⟩),
      hb.completedDays =
        ((hb.completionHistory.filter (fun e => e.completed)).length : Int) ∧
      hb.completedDays ≤ hb.totalDays ∧
      (hb.isCompleted = true ↔
        ∃ e ∈ hb.completionHistory, e.date = (0 : Int) ∧ e.completed = true) :=
  C3_recalcInvariants _ ⟨0, 0, "t"⟩ (by decide) (by decide) (by decide)

/-! ## History update lemmas -/

theorem todayApplied_nil (today : Int) (tgt : Bool) :
    todayApplied [] today tgt = [⟨today, tgt⟩] := rfl

theorem todayApplied_cons (e : CompletionEntry) (rest : List CompletionEntry)
    (today : Int) (tgt : Bool) :
    todayApplied (e :: rest) today tgt =
      if e.date = today then ⟨today, tgt⟩ :: rest
      else e :: todayApplied rest today tgt := by
  by_cases hd : e.date = today
  · rw [if_pos hd, todayApplied]
    rw [List.findIdx?_cons, if_pos (by simpa using hd)]
    rfl
  · rw [if_neg hd, todayApplied, todayApplied]
    rw [List.findIdx?_cons, if_neg (by simpa using hd), List.findIdx?_start_succ]
    cases hfi : rest.findIdx? (fun e => e.date == today) with
    | none => simp
    | some j => simp

theorem todayApplied_mem (l : List CompletionEntry) (today : Int) (tgt : Bool) :
    ∀ x ∈ todayApplied l today tgt, x = ⟨today, tgt⟩ ∨ x ∈ l := by
  induction l with
  | nil =>
    intro x hx
    rw [todayApplied_nil] at hx
    exact Or.inl (List.mem_singleton.mp hx)
  | cons e rest ih =>
    intro x hx
    rw [todayApplied_cons] at hx
    by_cases hd : e.date = today
    · rw [if_pos hd] at hx
      rcases List.mem_cons.mp hx with rfl | hx'
      · exact Or.inl rfl
      · exact Or.inr (List.mem_cons_of_mem _ hx')
    · rw [if_neg hd] at hx
      rcases List.mem_cons.mp hx with rfl | hx'
      · exact Or.inr (List.mem_cons_self _ _)
      · rcases ih x hx' with h | h
        · exact Or.inl h
        · exact Or.inr (List.mem_cons_of_mem _ h)

theorem todayApplied_filter (l : List CompletionEntry) (today : Int) (tgt : Bool)
    (hnd : List.Pairwise (fun a b => a.date ≠ b.date) l) :
    (todayApplied l today tgt).filter (fun e => decide (e.date = today)) =
      [⟨today, tgt⟩] := by
  induction l with
  | nil =>
    rw [todayApplied_nil]
    simp
  | cons e rest ih =>
    rcases List.pairwise_cons.mp hnd with ⟨he, hrest⟩
    rw [todayApplied_cons]
    by_cases hd : e.date = today
    · rw [if_pos hd]
      have hnone : rest.filter (fun e => decide (e.date = today)) = [] := by
        rw [List.filter_eq_nil_iff]
        intro a ha
        simp only [decide_eq_true_eq]
        exact fun hcon => (he a ha) (hd.symm ▸ hcon ▸ rfl)
      rw [List.filter_cons]
      simp [hnone]
    · rw [if_neg hd]
      rw [List.filter_cons]
      simp only [decide_eq_true_eq, hd, if_false]
      exact ih hrest

theorem todayApplied_pairwise (l : List CompletionEntry) (today : Int) (tgt : Bool)
    (hnd : List.Pairwise (fun a b => a.date ≠ b.date) l) :
    List.Pairwise (fun a b => a.date ≠ b.date) (todayApplied l today tgt) := by
  induction l with
  | nil =>
    rw [todayApplied_nil]
    simp
  | cons e rest ih =>
    rcases List.pairwise_cons.mp hnd with ⟨he, hrest⟩
    rw [todayApplied_cons]
    by_cases hd : e.date = today
    · rw [if_pos hd]
      refine List.pairwise_cons.mpr ⟨?_, hrest⟩
      intro b hb
      exact fun hcon => (he b hb) (hd ▸ hcon ▸ rfl)
    · rw [if_neg hd]
      refine List.pairwise_cons.mpr ⟨?_, ih hrest⟩
      intro b hb
      rcases todayApplied_mem rest today tgt b hb with rfl | hb'
      · exact hd
      · exact he b hb'

theorem updatedHistoryOf_filter (l : List CompletionEntry) (today : Int) (tgt : Bool)
    (hnd : List.Pairwise (fun a b => a.date ≠ b.date) l) :
    (updatedHistoryOf l today tgt).filter (fun e => decide (e.date = today)) =
      [⟨today, tgt⟩] := by
  have hperm := (stableSort_perm (fun e => e.date) (todayApplied l today tgt)).filter
    (fun e => decide (e.date = today))
  rw [todayApplied_filter l today tgt hnd] at hperm
  exact List.perm_singleton.mp hperm

theorem updatedHistoryOf_pairwise (l : List CompletionEntry) (today : Int) (tgt : Bool)
    (hnd : List.Pairwise (fun a b => a.date ≠ b.date) l) :
    List.Pairwise (fun a b => a.date ≠ b.date) (updatedHistoryOf l today tgt) := by
  have hsymm : ∀ {x y : CompletionEntry}, x.date ≠ y.date → y.date ≠ x.date :=
    fun h => h.symm
  exact ((stableSort_perm (fun e => e.date) _).pairwise_iff hsymm).mpr
    (todayApplied_pairwise l today tgt hnd)

theorem list_set_getElem_self {α : Type} :
    ∀ (l : List α) (i : Nat) (v : α), l[i]? = some v → l.set i v = l := by
  intro l
  induction l with
  | nil => intro i v hv; simp at hv
  | cons x t ih =>
    intro i v hv
    cases i with
    | zero =>
      simp only [List.getElem?_cons_zero, Option.some.injEq] at hv
      rw [hv, List.set_cons_zero]
    | succ j =>
      simp only [List.getElem?_cons_succ] at hv
      rw [List.set_cons_succ, ih j v hv]

theorem findIdx?_entry_at {α : Type} (p : α → Bool) (l : List α) (j : Nat)
    (hf : l.findIdx? p = some j) : ∃ e, l[j]? = some e ∧ p e = true := by
  obtain ⟨hlt, hp, _⟩ := List.findIdx?_eq_some_iff_getElem.mp hf
  refine ⟨_, ?_, hp⟩
  rw [List.getElem?_eq_some_iff]
  exact ⟨hlt, rfl⟩

theorem findIdx?_pred_at {α : Type} (p : α → Bool) (l : List α) (i : Nat) (a : α)
    (hf : l.findIdx? p = some i) (ha : l[i]? = some a) : p a = true := by
  obtain ⟨e, he, hpe⟩ := findIdx?_entry_at p l i hf
  rw [ha] at he
  cases he
  exact hpe

theorem updatedHistoryOf_idem (l : List CompletionEntry) (today : Int) (tgt : Bool)
    (hnd : List.Pairwise (fun a b => a.date ≠ b.date) l) :
    updatedHistoryOf (updatedHistoryOf l today tgt) today tgt =
      updatedHistoryOf l today tgt := by
  have hfil := updatedHistoryOf_filter l today tgt hnd
  have hsorted : List.Pairwise (fun a b : CompletionEntry => a.date ≤ b.date)
      (updatedHistoryOf l today tgt) := stableSort_pairwise _ _
  have hmem : (⟨today, tgt⟩ : CompletionEntry) ∈ updatedHistoryOf l today tgt := by
    have : (⟨today, tgt⟩ : CompletionEntry) ∈
        (updatedHistoryOf l today tgt).filter (fun e => decide (e.date = today)) := by
      rw [hfil]; exact List.mem_singleton_self _
    exact List.mem_of_mem_filter this
  have happ : todayApplied (updatedHistoryOf l today tgt) today tgt =
      updatedHistoryOf l today tgt := by
    rw [todayApplied]
    have hsome : ((updatedHistoryOf l today tgt).findIdx?
        (fun e => e.date == today)).isSome = true := by
      rw [List.findIdx?_isSome]
      exact List.any_eq_true.mpr ⟨⟨today, tgt⟩, hmem, by simp⟩
    obtain ⟨j, hj⟩ := Option.isSome_iff_exists.mp hsome
    rw [hj]
    obtain ⟨e₀, he₀, hpe₀⟩ := findIdx?_entry_at _ _ j hj
    have he₀eq : e₀ = ⟨today, tgt⟩ := by
      have hmemf : e₀ ∈
          (updatedHistoryOf l today tgt).filter (fun e => decide (e.date = today)) := by
        apply List.mem_filter.mpr
        exact ⟨List.getElem?_mem he₀, by simpa using hpe₀⟩
      rw [hfil] at hmemf
      exact List.mem_singleton.mp hmemf
    rw [← he₀eq]
    exact list_set_getElem_self _ j _ he₀
  rw [updatedHistoryOf, happ, stableSort_sorted_id _ _ hsorted]

/-! ## Update success and frame lemmas -/

theorem validateHabit_updateCompletion (now : JsDate) (h : Habit) (tgt : Bool)
    (hv : validateHabit h = []) :
    validateHabit (updateCompletionHabit h tgt now) = [] := by
  rw [validateHabit_nil_iff] at hv ⊢
  exact ⟨hv.1, hv.2.1, Int.ofNat_nonneg _,
    le_trans (Int.ofNat_nonneg _) (le_max_left _ _)⟩

theorem storedDataIsValid_set (sd : StoredData) (i : Nat) (u : Habit) (iso : String)
    (hvalid : storedDataIsValid sd = true) (hu : validateHabit u = [])
    (hiso : iso ≠ "") :
    storedDataIsValid ⟨sd.habits.set i u, iso, "1.0.0"⟩ = true := by
  rw [storedDataIsValid_iff]
  refine ⟨?_, hiso, show ("1.0.0" : String) ≠ "" by decide⟩
  intro hb hmem
  rcases List.mem_or_eq_of_mem_set hmem with h | rfl
  · exact ((storedDataIsValid_iff sd).mp hvalid).1 hb h
  · exact hu

theorem updateHabitCompletion_success (sd : StoredData) (hid : String)
    (target : Bool) (now : JsDate) (i : Nat) (habit : Habit)
    (hvalid : storedDataIsValid sd = true) (hiso : now.iso ≠ "")
    (hfind : sd.habits.findIdx? (fun h => h.id == hid) = some i)
    (hhab : sd.habits[i]? = some habit) :
    updateHabitCompletion (some sd) hid target now true =
      (true, some ⟨sd.habits.set i (updateCompletionHabit habit target now),
        now.iso, "1.0.0"⟩) := by
  have hget : getHabits (some sd) now = sd.habits := by
    simp [getHabits, hvalid]
  have hu : validateHabit (updateCompletionHabit habit target now) = [] :=
    validateHabit_updateCompletion now habit target
      (((storedDataIsValid_iff sd).mp hvalid).1 habit (List.getElem?_mem hhab))
  have hsetvalid := storedDataIsValid_set sd i (updateCompletionHabit habit target now)
    now.iso hvalid hu hiso
  rw [updateHabitCompletion, hget, hfind]
  simp only [hhab]
  rw [saveHabits]
  simp [hsetvalid]

theorem findIdx?_set_self {α : Type} (p : α → Bool) :
    ∀ (l : List α) (i : Nat) (u : α), l.findIdx? p = some i → p u = true →
      (l.set i u).findIdx? p = some i := by
  intro l
  induction l with
  | nil => intro i u hf _; simp at hf
  | cons x t ih =>
    intro i u hf hu
    rw [List.findIdx?_cons] at hf
    by_cases hx : p x
    · rw [if_pos hx] at hf
      cases hf
      rw [List.set_cons_zero, List.findIdx?_cons, if_pos hu]
    · rw [if_neg hx, List.findIdx?_start_succ] at hf
      cases i with
      | zero => simp at hf
      | succ j =>
        have hf' : t.findIdx? p = some j := by
          rcases Option.map_eq_some'.mp hf with ⟨k, hk, hkj⟩
          have : k = j := by omega
          rw [← this]; exact hk
        rw [List.set_cons_succ, List.findIdx?_cons, if_neg hx,
          List.findIdx?_start_succ, ih j u hf' hu]
        rfl

/-- C10: when `updateHabitCompletion` succeeds, the persisted collection has
the same length and order as before, habits whose id differs from the target
id are exactly the habits previously stored at their index, and the targeted
habit keeps its `id`, `name`, `frequency`, `targetTime` and `createdAt`. -/
theorem C10_updateFrame (sd : StoredData) (hid : String) (target : Bool)
    (now : JsDate) (writeOk : Bool) (i : Nat) (habit : Habit)
    (hfind : (getHabits (some sd) now).findIdx? (fun h => h.id == hid) = some i)
    (hhab : (getHabits (some sd) now)[i]? = some habit)
    (hsucc : (updateHabitCompletion (some sd) hid target now writeOk).1 = true) :
    ∃ sd' : StoredData,
      (updateHabitCompletion (some sd) hid target now writeOk).2 = some sd' ∧
      sd'.habits.length = (getHabits (some sd) now).length ∧
      (∀ (j : Nat) (hb : Habit), (getHabits (some sd) now)[j]? = some hb →
        hb.id ≠ hid → sd'.habits[j]? = some hb) ∧
      sd'.habits[i]? = some (updateCompletionHabit habit target now) ∧
      (updateCompletionHabit habit target now).id = habit.id ∧
      (updateCompletionHabit habit target now).name = habit.name ∧
      (updateCompletionHabit habit target now).frequency = habit.frequency ∧
      (updateCompletionHabit habit target now).targetTime = habit.targetTime ∧
      (updateCompletionHabit habit target now).createdAt = habit.createdAt := by
  have hshape : updateHabitCompletion (some sd) hid target now writeOk =
      saveHabits (some sd)
        ((getHabits (some sd) now).set i (updateCompletionHabit habit target now))
        now writeOk := by
    rw [updateHabitCompletion, hfind]
    simp only [hhab]
  rw [hshape] at hsucc ⊢
  rw [saveHabits] at hsucc ⊢
  by_cases hval : storedDataIsValid
      ⟨(getHabits (some sd) now).set i (updateCompletionHabit habit target now),
        now.iso, "1.0.0"⟩
  · cases writeOk with
    | false => simp [hval] at hsucc
    | true =>
      simp only [hval, if_true]
      have hilt : i < (getHabits (some sd) now).length :=
        (List.getElem?_eq_some_iff.mp hhab).1
      have hhid : habit.id = hid := by
        simpa using findIdx?_pred_at _ _ i habit hfind hhab
      refine ⟨_, rfl, ?_, ?_, ?_, rfl, rfl, rfl, rfl, rfl⟩
      · exact List.length_set _ _ _
      · intro j hb hj hne
        have hji : i ≠ j := by
          intro hcon
          subst hcon
          rw [hhab] at hj
          cases hj
          exact hne hhid
        show ((getHabits (some sd) now).set i _)[j]? = some hb
        rw [List.getElem?_set_ne hji, hj]
      · show ((getHabits (some sd) now).set i _)[i]? = _
        rw [List.getElem?_set_self (by simpa using hilt)]
  · simp [hval] at hsucc

/-- A concrete valid one-habit store. -/
def walkStore : StoredData := ⟨[plainHabit "x" "Walk"], "u", "1.0.0"⟩

/-- C10 (witness): the frame conditions at a concrete successful update. -/
theorem C10_witness :
    ∃ sd' : StoredData,
      (updateHabitCompletion (some walkStore) "x" true ⟨0, 0, "t"⟩ true).2 = some sd' ∧
      sd'.habits.length = (getHabits (some walkStore) ⟨0, 0, "t"⟩).length ∧
      (∀ (j : Nat) (hb : Habit), (getHabits (some walkStore) ⟨0, 0, "t"⟩)[j]? = some hb →
        hb.id ≠ "x" → sd'.habits[j]? = some hb) ∧
      sd'.habits[0]? = some (updateCompletionHabit (plainHabit "x" "Walk") true ⟨0, 0, "t"⟩) ∧
      (updateCompletionHabit (plainHabit "x" "Walk") true ⟨0, 0, "t"⟩).id =
        (plainHabit "x" "Walk").id ∧
      (updateCompletionHabit (plainHabit "x" "Walk") true ⟨0, 0, "t"⟩).name =
        (plainHabit "x" "Walk").name ∧
      (updateCompletionHabit (plainHabit "x" "Walk") true ⟨0, 0, "t"⟩).frequency =
        (plainHabit "x" "Walk").frequency ∧
      (updateCompletionHabit (plainHabit "x" "Walk") true ⟨0, 0, "t"⟩).targetTime =
        (plainHabit "x" "Walk").targetTime ∧
      (updateCompletionHabit (plainHabit "x" "Walk") true ⟨0, 0, "t"⟩).createdAt =
        (plainHabit "x" "Walk").createdAt :=
  C10_updateFrame walkStore "x" true ⟨0, 0, "t"⟩ true 0 (plainHabit "x" "Walk")
    (by decide) (by decide) (by decide)

/-- C1 (counterexample): a schema-valid store whose habit already has two
history entries dated today: after a successful `updateHabitCompletion` the
persisted history still has two entries for today, not exactly one. -/
theorem C1_counterexample :
    (updateHabitCompletion (some ⟨[twoTodayHabit], "u", "1.0.0"⟩) "x" true
      ⟨0, 0, "t"⟩ true).1 = true ∧
    (updateHabitCompletion (some ⟨[twoTodayHabit], "u", "1.0.0"⟩) "x" true
      ⟨0, 0, "t"⟩ true).2 =
      some ⟨[{ twoTodayHabit with
                completedDays := 2
                totalDays := 2
                isCompleted := true
                completionHistory := [⟨0, true⟩, ⟨0, true⟩]
                lastUpdated := some "t" }], "t", "1.0.0"⟩ ∧
    (([⟨0, true⟩, ⟨0, true⟩] : List CompletionEntry).filter
      (fun e => decide (e.date = 0))).length = 2 := by
  refine ⟨by decide, by decide, by decide⟩

/-- C1 (amended): for a valid store containing the habit, provided its stored
history has at most one entry per date, `updateHabitCompletion` succeeds
(when the write succeeds), the updated history has exactly one entry for
today carrying the target flag, `completedDays` counts the completed entries
of the updated history, `totalDays = max(history.length, daysSinceCreation)`,
`isCompleted` equals the target, and repeating the call with the same target
on the same day leaves the history content unchanged. -/
theorem C1_updateCompletion (sd : StoredData) (hid : String) (target : Bool)
    (now : JsDate) (i : Nat) (habit : Habit)
    (hvalid : storedDataIsValid sd = true) (hiso : now.iso ≠ "")
    (hfind : sd.habits.findIdx? (fun h => h.id == hid) = some i)
    (hhab : sd.habits[i]? = some habit)
    (hnd : List.Pairwise (fun a b => a.date ≠ b.date) habit.completionHistory) :
    updateHabitCompletion (some sd) hid target now true =
      (true, some ⟨sd.habits.set i (updateCompletionHabit habit target now),
        now.iso, "1.0.0"⟩) ∧
    (updateCompletionHabit habit target now).completionHistory.filter
      (fun e => decide (e.date = now.todayCode)) = [⟨now.todayCode, target⟩] ∧
    (updateCompletionHabit habit target now).completedDays =
      (((updateCompletionHabit habit target now).completionHistory.filter
        (fun e => e.completed)).length : Int) ∧
    (updateCompletionHabit habit target now).totalDays =
      max (((updateCompletionHabit habit target now).completionHistory.length : Nat) : Int)
        (daysSinceCreation now habit.createdAt) ∧
    (updateCompletionHabit habit target now).isCompleted = target ∧
    (∀ now₂ : JsDate, now₂.todayCode = now.todayCode → now₂.iso ≠ "" →
      updateHabitCompletion
          (some ⟨sd.habits.set i (updateCompletionHabit habit target now),
            now.iso, "1.0.0"⟩) hid target now₂ true =
        (true, some ⟨(sd.habits.set i (updateCompletionHabit habit target now)).set i
            (updateCompletionHabit (updateCompletionHabit habit target now) target now₂),
          now₂.iso, "1.0.0"⟩) ∧
      (updateCompletionHabit (updateCompletionHabit habit target now)
        target now₂).completionHistory =
        (updateCompletionHabit habit target now).completionHistory) := by
  have hhid : habit.id == hid :=
    findIdx?_pred_at _ _ i habit hfind hhab
  have hilt : i < sd.habits.length := (List.getElem?_eq_some_iff.mp hhab).1
  have hu : validateHabit (updateCompletionHabit habit target now) = [] :=
    validateHabit_updateCompletion now habit target
      (((storedDataIsValid_iff sd).mp hvalid).1 habit (List.getElem?_mem hhab))
  refine ⟨updateHabitCompletion_success sd hid target now i habit hvalid hiso hfind hhab,
    ?_, rfl, rfl, rfl, ?_⟩
  · show (updatedHistoryOf habit.completionHistory now.todayCode target).filter
        (fun e => decide (e.date = now.todayCode)) = [⟨now.todayCode, target⟩]
    exact updatedHistoryOf_filter habit.completionHistory now.todayCode target hnd
  · intro now₂ htoday hiso₂
    have hfind₂ : (sd.habits.set i (updateCompletionHabit habit target now)).findIdx?
        (fun h => h.id == hid) = some i :=
      findIdx?_set_self _ sd.habits i _ hfind (by simpa using hhid)
    have hhab₂ : (sd.habits.set i (updateCompletionHabit habit target now))[i]? =
        some (updateCompletionHabit habit target now) :=
      List.getElem?_set_self (by simpa using hilt)
    have hvalid₂ : storedDataIsValid
        ⟨sd.habits.set i (updateCompletionHabit habit target now),
          now.iso, "1.0.0"⟩ = true :=
      storedDataIsValid_set sd i _ now.iso hvalid hu hiso
    refine ⟨updateHabitCompletion_success _ hid target now₂ i _ hvalid₂ hiso₂
      hfind₂ hhab₂, ?_⟩
    show updatedHistoryOf (updatedHistoryOf habit.completionHistory now.todayCode target)
        now₂.todayCode target =
      updatedHistoryOf habit.completionHistory now.todayCode target
    rw [htoday]
    exact updatedHistoryOf_idem habit.completionHistory now.todayCode target hnd

/-- C1 (witness): the amended statement at a concrete valid one-habit store,
with the repeat call taken on the same day. -/
theorem C1_witness :
    updateHabitCompletion (some walkStore) "x" true ⟨0, 0, "t"⟩ true =
      (true, some ⟨walkStore.habits.set 0
        (updateCompletionHabit (plainHabit "x" "Walk") true ⟨0, 0, "t"⟩),
        "t", "1.0.0"⟩) ∧
    (updateCompletionHabit (plainHabit "x" "Walk") true ⟨0, 0, "t"⟩).completionHistory.filter
      (fun e => decide (e.date = (0 : Int))) = [⟨0, true⟩] ∧
    (updateCompletionHabit
        (updateCompletionHabit (plainHabit "x" "Walk") true ⟨0, 0, "t"⟩)
        true ⟨0, 0, "t2"⟩).completionHistory =
      (updateCompletionHabit (plainHabit "x" "Walk") true ⟨0, 0, "t"⟩).completionHistory := by
  have h := C1_updateCompletion walkStore "x" true ⟨0, 0, "t"⟩ 0 (plainHabit "x" "Walk")
    (by decide) (by decide) (by decide) (by decide) (by decide)
  exact ⟨h.1, h.2.1, (h.2.2.2.2.2 ⟨0, 0, "t2"⟩ rfl (by decide)).2⟩
